import Mathlib

/-!
Shallow embedding of the bee/hive/Winnie simulation (src/main.cpp) and proofs
of its specified properties.

The C++ program runs one thread per `Bee`, one for the `Hive` release loop and
one for `Winnie`.  All shared-state mutations are modelled here as atomic
transitions of a `Hive` state value; per-actor loops are modelled by the
functions that describe one loop-body execution, and the reachable-state
relation `Reachable` closes the initial hive state under those transitions.
Condition-variable notifications are modelled as explicit `Notification`
values emitted by the operations that perform them in the source.
-/

/-- Condition variables of the program: each bee's private `condition_`,
the hive's `bee_count_condition_` and the hive's `honey_count_condition_`
(src/main.cpp lines 51, 100, 101). Bees are identified by their integer id. -/
inductive CondVar
  | condition_ (id : Nat)
  | bee_count_condition_
  | honey_count_condition_
deriving DecidableEq, Repr

/-- A condition-variable notification: `notify_one` or `notify_all`. -/
inductive Notification
  | one (cv : CondVar)
  | all (cv : CondVar)
deriving DecidableEq, Repr

/-- Mutexes of the program: `Hive::queue_mutex_` (line 98), `Hive::hive_mutex_`
(line 104), each bee's `bee_mutex_` (line 48) and the logger's `io_mutex_`
(line 14). -/
inductive StdMutex
  | queue_mutex_
  | hive_mutex_
  | bee_mutex_ (id : Nat)
  | io_mutex_
deriving DecidableEq, Repr

/-- State of one `Bee` (src/main.cpp lines 47-90): the `at_home_` flag, the
recorded `time_to_hunt_` in milliseconds, and the `stop_signal_` flag.  The
bee's id is its index in the hive's `all_bees_` vector (ids are assigned
0,1,... in construction order, matching the source). -/
structure Bee where
  at_home_ : Bool
  time_to_hunt_ : Nat
  stop_signal_ : Bool
deriving DecidableEq, Inhabited, Repr

/-- State of the `Hive` (src/main.cpp lines 92-202): the vector `all_bees_`,
the FIFO queue `bees_currently_in_hive_` holding indices into `all_bees_`
(the source stores `Bee*` pointers into the same vector), the shared counter
`honey_count_`, and the hive's `stop_signal_`. -/
structure Hive where
  all_bees_ : List Bee
  bees_currently_in_hive_ : List Nat
  honey_count_ : Int
  stop_signal_ : Bool
deriving DecidableEq, Repr

/-- State of `Winnie` (src/main.cpp lines 221-277): just the `stop_signal_`
flag; the hive it targets is passed separately. -/
structure Winnie where
  stop_signal_ : Bool
deriving DecidableEq, Repr

/-- Cap on the honey counter, `Hive::kMaxHoneyCount = 30` (src/main.cpp:95). -/
def kMaxHoneyCount : Int := 30

/-- `Bee::Hunt(time)` (src/main.cpp:69-76): clears `at_home_` and records the
hunt duration.  (The notification of the bee's private condition is what wakes
the bee's own thread; it carries no shared-state change.) -/
def Bee.Hunt (b : Bee) (time : Nat) : Bee :=
  { b with at_home_ := false, time_to_hunt_ := time }

/-- `Bee::End` (src/main.cpp:78-81): sets the bee's `stop_signal_`. -/
def Bee.End (b : Bee) : Bee :=
  { b with stop_signal_ := true }

/-- Notifications issued by `Bee::End` for bee `id`: a `notify_all` on that
bee's private `condition_` (src/main.cpp:80). -/
def Bee.EndNotifications (id : Nat) : List Notification :=
  [.all (.condition_ id)]

/-- `Hive::Hive(num_bees)` (src/main.cpp:109-115): creates `num_bees` bees,
all at home (`at_home_` defaults to `true`, line 49), and pushes each one onto
`bees_currently_in_hive_` in id order; `honey_count_` starts at 0 (line 102)
and `stop_signal_` at false (line 107). -/
def Hive.mkHive (num_bees : Nat) : Hive :=
  { all_bees_ := List.replicate num_bees
      { at_home_ := true, time_to_hunt_ := 0, stop_signal_ := false },
    bees_currently_in_hive_ := List.range num_bees,
    honey_count_ := 0,
    stop_signal_ := false }

/-- `Hive::Size()` (src/main.cpp:133-137): the length of
`bees_currently_in_hive_`. -/
def Hive.Size (h : Hive) : Nat :=
  h.bees_currently_in_hive_.length

/-- `Hive::ReleaseOne()` (src/main.cpp:139-150): pops the front bee of the
queue and calls its `Hunt` with the sampled duration `release_ms`.  The source
calls `front()`/`pop()` unconditionally; its only caller `Hive::Run` has
established `Size() > 1` first, and on an (unreachable) empty queue this model
leaves the state unchanged. -/
def Hive.ReleaseOne (h : Hive) (release_ms : Nat) : Hive :=
  match h.bees_currently_in_hive_ with
  | [] => h
  | next :: rest =>
      { h with
        bees_currently_in_hive_ := rest,
        all_bees_ := h.all_bees_.set next
          ((h.all_bees_.getD next default).Hunt release_ms) }

/-- `Hive::ReturnOne(bee)` (src/main.cpp:152-163): pushes the bee onto the
queue, increments `honey_count_` if it is below `kMaxHoneyCount`, and issues a
`notify_one` on `bee_count_condition_` and on `honey_count_condition_`. -/
def Hive.ReturnOne (h : Hive) (bee : Nat) : Hive × List Notification :=
  ({ h with
      bees_currently_in_hive_ := h.bees_currently_in_hive_ ++ [bee],
      honey_count_ :=
        if h.honey_count_ < kMaxHoneyCount then h.honey_count_ + 1
        else h.honey_count_ },
   [.one .bee_count_condition_, .one .honey_count_condition_])

/-- `Hive::TryAttack()` (src/main.cpp:165-172): if `Size() < 3`, sets
`honey_count_` to 0 and returns true; otherwise returns false and changes
nothing. -/
def Hive.TryAttack (h : Hive) : Bool × Hive :=
  if h.Size < 3 then (true, { h with honey_count_ := 0 })
  else (false, h)

/-- `Hive::End()` (src/main.cpp:194-201): sets the hive's `stop_signal_` and
calls `Bee::End` on every bee. -/
def Hive.End (h : Hive) : Hive :=
  { h with stop_signal_ := true, all_bees_ := h.all_bees_.map Bee.End }

/-- Notifications issued by `Hive::End()` for a hive of `n` bees: each bee's
`Bee::End` notify_all (line 197 via line 80), then `notify_all` on
`bee_count_condition_` and on `honey_count_condition_` (lines 199-200). -/
def Hive.EndNotifications (n : Nat) : List Notification :=
  ((List.range n).map fun i => Notification.all (.condition_ i)) ++
    [.all .bee_count_condition_, .all .honey_count_condition_]

/-- The `at_home_ = true;` assignment a bee performs on itself when its hunt
sleep ends (src/main.cpp:215). -/
def Bee.backHome (b : Bee) : Bee :=
  { b with at_home_ := true }

/-- One return of bee `i` as performed by `Bee::Run` after its hunt sleep
(src/main.cpp:214-216): set that bee's `at_home_` to true, then call
`Hive::ReturnOne` on it. -/
def Hive.beeReturnStep (h : Hive) (i : Nat) : Hive :=
  (Hive.ReturnOne
    { h with all_bees_ := h.all_bees_.set i (h.all_bees_.getD i default).backHome } i).1

/-- `Winnie::End()` (src/main.cpp:274-276): sets Winnie's `stop_signal_`. -/
def Winnie.End (w : Winnie) : Winnie :=
  { w with stop_signal_ := true }

/-- Notifications issued by `Winnie::End()`: none — the source body is the
single statement `stop_signal_ = true;` (src/main.cpp:275). -/
def Winnie.EndNotifications : List Notification :=
  []

/-- Condition variable on which `Winnie::Run` parks while waiting for the
honey threshold or a stop signal: the hive's `honey_count_condition_`
(src/main.cpp:256). -/
def Winnie.ParkedOnCondition : CondVar :=
  .honey_count_condition_

/-- Wait predicate of `Winnie::Run` (src/main.cpp:256):
`honey_count_ >= 15 || stop_signal_`. -/
def winnieWaitPred (h : Hive) (w : Winnie) : Bool :=
  decide (15 ≤ h.honey_count_) || w.stop_signal_

/-- `Winnie::Attack()` (src/main.cpp:242-245): logs and delegates to
`Hive::TryAttack`. -/
def Winnie.Attack (h : Hive) : Bool × Hive :=
  h.TryAttack

/-- Control action chosen by one iteration of `Winnie::Run` after its wait
returns: `exitLoop` models the `return` on stop (line 259-261); `reloop`
models `continue` after a successful attack — the loop re-checks the
threshold immediately (lines 263-265); `cureThenLoop` models releasing the
held lock, calling `Cure()` and looping (lines 266-269). -/
inductive WinnieAction
  | exitLoop
  | reloop
  | cureThenLoop
deriving DecidableEq, Repr

/-- One iteration body of `Winnie::Run` (src/main.cpp:253-272), entered once
the wait predicate `winnieWaitPred` holds: on stop, exit; otherwise attack,
and either reloop immediately (success) or cure (failure). -/
def Winnie.RunBody (w : Winnie) (h : Hive) : Hive × WinnieAction :=
  if w.stop_signal_ then (h, .exitLoop)
  else
    let r := Winnie.Attack h
    if r.1 then (r.2, .reloop) else (r.2, .cureThenLoop)

/-- Mutex acquired inside `Hive::Size` around reading the queue:
`queue_mutex_` (src/main.cpp:135). -/
def Hive.SizeGuard : StdMutex :=
  .queue_mutex_

/-- Mutex acquired inside `Hive::ReleaseOne` around `front()`/`pop()`:
`hive_mutex_` (src/main.cpp:141). -/
def Hive.ReleaseOnePopGuard : StdMutex :=
  .hive_mutex_

/-- Mutex acquired inside `Hive::ReturnOne` around `push()` and the honey
increment: `hive_mutex_` (src/main.cpp:154). -/
def Hive.ReturnOneGuard : StdMutex :=
  .hive_mutex_

/-- Mutexes `Hive::TryAttack` acquires itself: only `queue_mutex_`, through
its call to `Size()`; the check-and-reset body takes no lock of its own
(src/main.cpp:165-172). -/
def Hive.TryAttackAcquiredGuards : List StdMutex :=
  [.queue_mutex_]

/-- Mutex `Winnie::Run` holds across its call to `Attack()`/`TryAttack()`:
the hive's `hive_mutex_` (src/main.cpp:255, unlocked only on the failure
branch at line 267). -/
def Winnie.RunHeldGuard : StdMutex :=
  .hive_mutex_

/-- Events of the hive transition system: a release of the front bee with a
sampled hunt duration (`Hive::Run` + `ReleaseOne`), the return of bee `i`
(`Bee::Run` post-sleep segment), a raid attempt by Winnie (`TryAttack` via
`Winnie::Run`), and the hive stop (`Hive::End`). -/
inductive Event
  | release (release_ms : Nat)
  | beeReturn (i : Nat)
  | attack
  | endHive
deriving DecidableEq, Repr

/-- Atomic transitions of the hive state, as performed by the threads of the
program.  A `release` happens only while the hive is not stopped and
`Size() > 1` — the gate `Hive::Run` establishes before calling `ReleaseOne`
(src/main.cpp:175-187); only `Hive::Run` ever pops the queue, so the gate
still holds at the pop.  A `beeReturn i` happens only while bee `i` is away
hunting (`at_home_ = false`); a stopped bee still finishes its current hunt
and returns (src/main.cpp:204-217).  An `attack` happens only after
`Winnie::Run`'s wait observed `honey_count_ >= 15` (src/main.cpp:256-263;
the observation cannot go stale because Winnie holds `hive_mutex_`, which
serializes it with `ReturnOne`).  `endHive` is `Hive::End`, callable at any
time. -/
inductive Step : Hive → Event → Hive → Prop
  | release (h : Hive) (release_ms : Nat) :
      h.stop_signal_ = false → 1 < h.Size →
      Step h (.release release_ms) (h.ReleaseOne release_ms)
  | beeReturn (h : Hive) (i : Nat) (hlt : i < h.all_bees_.length) :
      (h.all_bees_.get ⟨i, hlt⟩).at_home_ = false →
      Step h (.beeReturn i) (h.beeReturnStep i)
  | attack (h : Hive) :
      15 ≤ h.honey_count_ →
      Step h .attack h.TryAttack.2
  | endHive (h : Hive) :
      Step h .endHive h.End

/-- States of a hive of `num_bees` bees reachable from the freshly
constructed hive by the transitions of `Step`. -/
inductive Reachable (num_bees : Nat) : Hive → Prop
  | init : Reachable num_bees (Hive.mkHive num_bees)
  | step {h h' : Hive} {e : Event} :
      Reachable num_bees h → Step h e h' → Reachable num_bees h'

/-- Helper predicate: the full queue/bees bookkeeping invariant of a hive of
`n` bees.  The queue is duplicate-free, holds only valid bee indices, contains
exactly the bees whose `at_home_` flag is set, and its length plus the number
of bees away hunting equals the population. -/
def beesInv (n : Nat) (h : Hive) : Prop :=
  h.all_bees_.length = n ∧
  h.bees_currently_in_hive_.Nodup ∧
  (∀ b ∈ h.bees_currently_in_hive_, b < n) ∧
  (∀ i (hi : i < h.all_bees_.length),
      (i ∈ h.bees_currently_in_hive_ ↔ (h.all_bees_.get ⟨i, hi⟩).at_home_ = true)) ∧
  h.bees_currently_in_hive_.length +
      h.all_bees_.countP (fun b => b.at_home_ == false) = n

theorem honey_ReleaseOne (h : Hive) (ms : Nat) :
    (h.ReleaseOne ms).honey_count_ = h.honey_count_ := by
  rcases hq : h.bees_currently_in_hive_ with _ | ⟨a, l⟩ <;> simp [Hive.ReleaseOne, hq]

theorem honey_beeReturnStep (h : Hive) (i : Nat) :
    (h.beeReturnStep i).honey_count_ =
      if h.honey_count_ < kMaxHoneyCount then h.honey_count_ + 1
      else h.honey_count_ := rfl

theorem honey_TryAttack (h : Hive) :
    h.TryAttack.2.honey_count_ = if h.Size < 3 then 0 else h.honey_count_ := by
  by_cases hs : h.Size < 3 <;> simp [Hive.TryAttack, hs]

theorem honey_End (h : Hive) : h.End.honey_count_ = h.honey_count_ := rfl

theorem ReleaseOne_size (h : Hive) (ms : Nat)
    (hne : h.bees_currently_in_hive_ ≠ []) :
    (h.ReleaseOne ms).Size = h.Size - 1 := by
  rcases hq : h.bees_currently_in_hive_ with _ | ⟨a, l⟩
  · exact absurd hq hne
  · simp [Hive.ReleaseOne, Hive.Size, hq]

/-- Claim C3: `TryAttack` returns true iff `Size() < 3` at the time of the
check; on success it resets the honey counter to zero, and on failure it
leaves the whole hive state unchanged. -/
theorem tryAttack_spec (h : Hive) :
    (h.TryAttack.1 = true ↔ h.Size < 3) ∧
    (h.TryAttack.1 = true → h.TryAttack.2.honey_count_ = 0) ∧
    (h.TryAttack.1 = false → h.TryAttack.2 = h) := by
  by_cases hs : h.Size < 3 <;> simp [Hive.TryAttack, hs]

/-- Witness for C3 at a hive of 4 present bees: the attack fails and the
state is unchanged. -/
theorem tryAttack_spec_witness :
    ¬ (Hive.mkHive 4).Size < 3 ∧ (Hive.mkHive 4).TryAttack.2 = Hive.mkHive 4 := by
  have hth := tryAttack_spec (Hive.mkHive 4)
  have hns : ¬ (Hive.mkHive 4).Size < 3 := by decide
  refine ⟨hns, hth.2.2 ?_⟩
  cases hb : (Hive.mkHive 4).TryAttack.1
  · rfl
  · exact absurd (hth.1.mp hb) hns

/-- Claim C10: a raid touches nothing but the honey counter: the queue, the
bee states and the stop flag are unchanged whether it succeeds or fails, and
on success the counter is set to zero regardless of its current value (in
particular also below the threshold 15). -/
theorem tryAttack_frame (h : Hive) :
    h.TryAttack.2.bees_currently_in_hive_ = h.bees_currently_in_hive_ ∧
    h.TryAttack.2.all_bees_ = h.all_bees_ ∧
    h.TryAttack.2.stop_signal_ = h.stop_signal_ ∧
    (h.Size < 3 → h.TryAttack.2.honey_count_ = 0) := by
  by_cases hs : h.Size < 3 <;> simp [Hive.TryAttack, hs]

/-- Witness for C10 at a hive with one present bee and honey 7 (below the
threshold 15): the raid still zeroes the counter and leaves the queue
alone. -/
theorem tryAttack_frame_witness :
    ({ Hive.mkHive 1 with honey_count_ := 7 } : Hive).TryAttack.2.honey_count_ = 0 ∧
    ({ Hive.mkHive 1 with honey_count_ := 7 } : Hive).TryAttack.2.bees_currently_in_hive_ =
      ({ Hive.mkHive 1 with honey_count_ := 7 } : Hive).bees_currently_in_hive_ := by
  have hth := tryAttack_frame ({ Hive.mkHive 1 with honey_count_ := 7 })
  exact ⟨hth.2.2.2 (by decide), hth.1⟩

/-- Claim C6: `ReturnOne` always pushes the returning bee onto the queue,
increments the honey counter capped at `kMaxHoneyCount` (29 becomes 30, 30
stays 30, never 31), and issues a wake on both `bee_count_condition_` and
`honey_count_condition_`. -/
theorem returnOne_spec (h : Hive) (bee : Nat) :
    (h.ReturnOne bee).1.bees_currently_in_hive_ = h.bees_currently_in_hive_ ++ [bee] ∧
    (h.honey_count_ < kMaxHoneyCount →
      (h.ReturnOne bee).1.honey_count_ = h.honey_count_ + 1) ∧
    (kMaxHoneyCount ≤ h.honey_count_ →
      (h.ReturnOne bee).1.honey_count_ = h.honey_count_) ∧
    (h.honey_count_ = 29 → (h.ReturnOne bee).1.honey_count_ = 30) ∧
    (h.honey_count_ = 30 → (h.ReturnOne bee).1.honey_count_ = 30) ∧
    (h.honey_count_ ≤ 30 → (h.ReturnOne bee).1.honey_count_ ≤ 30) ∧
    (h.ReturnOne bee).2 =
      [Notification.one CondVar.bee_count_condition_,
       Notification.one CondVar.honey_count_condition_] := by
  by_cases hlt : h.honey_count_ < kMaxHoneyCount <;>
    simp [Hive.ReturnOne, kMaxHoneyCount, hlt] <;>
    unfold kMaxHoneyCount at hlt <;> omega

/-- Witness for C6 at honey 29: a bee return yields exactly 30. -/
theorem returnOne_spec_witness :
    (({ Hive.mkHive 2 with honey_count_ := 29 } : Hive).ReturnOne 0).1.honey_count_ = 30 :=
  (returnOne_spec ({ Hive.mkHive 2 with honey_count_ := 29 }) 0).2.2.2.1 (by decide)

/-- Claim C9: signaling stop twice — on the hive, on a bee, or on Winnie —
produces the same final state as signaling it once. -/
theorem stop_idempotent :
    (∀ h : Hive, h.End.End = h.End) ∧
    (∀ b : Bee, b.End.End = b.End) ∧
    (∀ w : Winnie, w.End.End = w.End) := by
  have hcomp : Bee.End ∘ Bee.End = Bee.End := funext fun b => rfl
  refine ⟨fun h => ?_, fun b => rfl, fun w => rfl⟩
  simp [Hive.End, List.map_map, hcomp]

/-- Claim C7 counterexample: the claim that `Size()` is guarded by the same
lock as the queue mutations, and that `TryAttack`'s check-and-reset takes
that same lock, is false in the source: `Size()` locks `queue_mutex_` while
`ReleaseOne`/`ReturnOne` mutate the queue under `hive_mutex_`, and
`TryAttack` itself acquires only `queue_mutex_` (via `Size()`). -/
theorem size_guard_differs_from_mutation_guard :
    ¬ (Hive.SizeGuard = Hive.ReleaseOnePopGuard ∧
       Hive.SizeGuard = Hive.ReturnOneGuard ∧
       Hive.ReturnOneGuard ∈ Hive.TryAttackAcquiredGuards) := by decide

/-- Claim C7 (amended): `Size()` locks `queue_mutex_`, the queue mutations in
`ReleaseOne`/`ReturnOne` lock `hive_mutex_` — two distinct mutexes — and
`TryAttack` itself acquires no `hive_mutex_`; what serializes its
check-and-reset against `ReturnOne` is that its caller `Winnie::Run` holds
`hive_mutex_` across the call. -/
theorem lock_discipline :
    Hive.SizeGuard = StdMutex.queue_mutex_ ∧
    Hive.ReleaseOnePopGuard = StdMutex.hive_mutex_ ∧
    Hive.ReturnOneGuard = StdMutex.hive_mutex_ ∧
    Hive.SizeGuard ≠ Hive.ReturnOneGuard ∧
    StdMutex.hive_mutex_ ∉ Hive.TryAttackAcquiredGuards ∧
    Winnie.RunHeldGuard = Hive.ReturnOneGuard := by decide

/-- Claim C8: `Winnie::End` mutates Winnie's stop flag but issues no
notification at all, although `Winnie::Run` parks on the hive's
`honey_count_condition_` waiting for that very flag; the only notify_all of
that condition comes from `Hive::End`, so stopping is not order-independent
and a parked Winnie whose hive was notified before Winnie's flag was set is
never woken. -/
theorem winnie_end_missing_notification :
    (Winnie.mk false).End.stop_signal_ = true ∧
    Winnie.EndNotifications = [] ∧
    Notification.all Winnie.ParkedOnCondition ∉ Winnie.EndNotifications ∧
    Notification.one Winnie.ParkedOnCondition ∉ Winnie.EndNotifications ∧
    Notification.all Winnie.ParkedOnCondition ∈ Hive.EndNotifications 10 := by decide

/-- Claim C4: Winnie's loop is gated on `honey_count_ >= 15` or stop; on stop
it exits; once past the gate, if the present count is below 3 the attack
succeeds, the counter is reset to 0 and the loop immediately re-checks the
threshold (`reloop`); otherwise the state is untouched and Winnie releases
the lock and cures before looping. -/
theorem winnie_run_spec (h : Hive) (w : Winnie) :
    (winnieWaitPred h w = true ↔ (15 ≤ h.honey_count_ ∨ w.stop_signal_ = true)) ∧
    (w.stop_signal_ = true → Winnie.RunBody w h = (h, WinnieAction.exitLoop)) ∧
    (w.stop_signal_ = false → h.Size < 3 →
      (Winnie.RunBody w h).2 = WinnieAction.reloop ∧
      (Winnie.RunBody w h).1.honey_count_ = 0) ∧
    (w.stop_signal_ = false → 3 ≤ h.Size →
      (Winnie.RunBody w h).2 = WinnieAction.cureThenLoop ∧
      (Winnie.RunBody w h).1 = h) := by
  refine ⟨by simp [winnieWaitPred], fun hw => by simp [Winnie.RunBody, hw], ?_, ?_⟩
  · intro hw hs
    simp [Winnie.RunBody, hw, Winnie.Attack, Hive.TryAttack, hs]
  · intro hw hs
    have hns : ¬ h.Size < 3 := by omega
    simp [Winnie.RunBody, hw, Winnie.Attack, Hive.TryAttack, hns]

/-- Witness for C4: with honey 20 and a single present bee, the raid succeeds,
the counter is zeroed and the loop re-checks immediately. -/
theorem winnie_run_spec_witness :
    (Winnie.RunBody ⟨false⟩ ({ Hive.mkHive 1 with honey_count_ := 20 })).2 =
      WinnieAction.reloop ∧
    (Winnie.RunBody ⟨false⟩ ({ Hive.mkHive 1 with honey_count_ := 20 })).1.honey_count_ = 0 :=
  (winnie_run_spec ({ Hive.mkHive 1 with honey_count_ := 20 }) ⟨false⟩).2.2.1 rfl (by decide)

theorem TryAttack_queue (h : Hive) :
    h.TryAttack.2.bees_currently_in_hive_ = h.bees_currently_in_hive_ := by
  by_cases hs : h.Size < 3 <;> simp [Hive.TryAttack, hs]

theorem TryAttack_bees (h : Hive) :
    h.TryAttack.2.all_bees_ = h.all_bees_ := by
  by_cases hs : h.Size < 3 <;> simp [Hive.TryAttack, hs]

theorem countP_set_true {α : Type} (p : α → Bool) (l : List α) :
    ∀ (i : Nat) (x : α) (hi : i < l.length),
      p (l.get ⟨i, hi⟩) = false → p x = true →
      (l.set i x).countP p = l.countP p + 1 := by
  induction l with
  | nil => intro i x hi _ _; simp at hi
  | cons a t ih =>
    intro i x hi hold hnew
    cases i with
    | zero =>
      have ha : p a = false := by simpa using hold
      simp [List.set_cons_zero, List.countP_cons, hnew, ha]
    | succ j =>
      have hj : j < t.length := by simpa using hi
      have hold' : p (t.get ⟨j, hj⟩) = false := by simpa using hold
      have hrec := ih j x hj hold' hnew
      simp only [List.set_cons_succ, List.countP_cons]
      omega

theorem countP_set_false {α : Type} (p : α → Bool) (l : List α) :
    ∀ (i : Nat) (x : α) (hi : i < l.length),
      p (l.get ⟨i, hi⟩) = true → p x = false →
      l.countP p = (l.set i x).countP p + 1 := by
  induction l with
  | nil => intro i x hi _ _; simp at hi
  | cons a t ih =>
    intro i x hi hold hnew
    cases i with
    | zero =>
      have ha : p a = true := by simpa using hold
      simp [List.set_cons_zero, List.countP_cons, hnew, ha]
    | succ j =>
      have hj : j < t.length := by simpa using hi
      have hold' : p (t.get ⟨j, hj⟩) = true := by simpa using hold
      have hrec := ih j x hj hold' hnew
      simp only [List.set_cons_succ, List.countP_cons]
      omega

theorem nodup_push {α : Type} (l : List α) (a : α) (hl : l.Nodup) (ha : a ∉ l) :
    (l ++ [a]).Nodup := by
  rw [List.nodup_append]
  refine ⟨hl, List.nodup_singleton a, ?_⟩
  intro x hx hx'
  have hxa : x = a := by simpa using hx'
  subst hxa
  exact ha hx

theorem beesInv_init (n : Nat) : beesInv n (Hive.mkHive n) := by
  have hc : (List.replicate n
        ({ at_home_ := true, time_to_hunt_ := 0, stop_signal_ := false } : Bee)).countP
      (fun b => b.at_home_ == false) = 0 := by
    rw [List.countP_eq_zero]
    intro b hb
    rw [List.eq_of_mem_replicate hb]
    simp
  refine ⟨by simp [Hive.mkHive], by simp [Hive.mkHive, List.nodup_range], ?_, ?_, ?_⟩
  · intro b hb
    simpa [Hive.mkHive] using hb
  · intro i hi
    have hin : i < n := by simpa [Hive.mkHive] using hi
    simp [Hive.mkHive, hin, List.get_eq_getElem, List.getElem_replicate]
  · simp [Hive.mkHive, hc]

theorem beesInv_of_eq (n : Nat) (h h' : Hive)
    (hb : h'.all_bees_ = h.all_bees_)
    (hq : h'.bees_currently_in_hive_ = h.bees_currently_in_hive_)
    (hinv : beesInv n h) : beesInv n h' := by
  unfold beesInv at *
  rw [hb, hq]
  exact hinv

theorem beesInv_step (n : Nat) (h h' : Hive) (e : Event)
    (hs : Step h e h') (hinv : beesInv n h) : beesInv n h' := by
  obtain ⟨hlen, hnd, hbound, hmem, hcount⟩ := hinv
  cases hs with
  | release ms hstop hgt =>
    rcases hq : h.bees_currently_in_hive_ with _ | ⟨next, rest⟩
    · exfalso
      unfold Hive.Size at hgt
      rw [hq] at hgt
      simp at hgt
    · have hnext_mem : next ∈ h.bees_currently_in_hive_ := by
        rw [hq]; exact List.mem_cons_self next rest
      have hnext_n : next < n := hbound next hnext_mem
      have hnext_len : next < h.all_bees_.length := by rw [hlen]; exact hnext_n
      have hnext_home : (h.all_bees_.get ⟨next, hnext_len⟩).at_home_ = true :=
        (hmem next hnext_len).mp hnext_mem
      simp only [List.get_eq_getElem] at hnext_home
      have hnd' : (next :: rest).Nodup := by rw [← hq]; exact hnd
      have hnotin : next ∉ rest := (List.nodup_cons.mp hnd').1
      have hrest_nd : rest.Nodup := (List.nodup_cons.mp hnd').2
      have hflip := countP_set_true (fun b => b.at_home_ == false) h.all_bees_ next
        ((h.all_bees_.getD next default).Hunt ms) hnext_len
        (by simp only [List.get_eq_getElem]; simp [hnext_home]) (by simp [Bee.Hunt])
      have hrel : h.ReleaseOne ms = { h with
          bees_currently_in_hive_ := rest,
          all_bees_ := h.all_bees_.set next ((h.all_bees_.getD next default).Hunt ms) } := by
        unfold Hive.ReleaseOne
        rw [hq]
      rw [hrel]
      refine ⟨?_, hrest_nd, ?_, ?_, ?_⟩
      · show (h.all_bees_.set next ((h.all_bees_.getD next default).Hunt ms)).length = n
        simp [hlen]
      · intro b hbmem
        have hbm : b ∈ rest := hbmem
        exact hbound b (by rw [hq]; exact List.mem_cons_of_mem next hbm)
      · intro i hi
        have hi' : i < (h.all_bees_.set next ((h.all_bees_.getD next default).Hunt ms)).length :=
          hi
        have hi0 : i < h.all_bees_.length := by simpa using hi'
        show i ∈ rest ↔
          ((h.all_bees_.set next ((h.all_bees_.getD next default).Hunt ms)).get
            ⟨i, hi'⟩).at_home_ = true
        by_cases hin : i = next
        · subst hin
          have hget : (h.all_bees_.set i ((h.all_bees_.getD i default).Hunt ms)).get ⟨i, hi'⟩
              = (h.all_bees_.getD i default).Hunt ms := by
            simp [List.get_eq_getElem]
          rw [hget]
          constructor
          · intro habs; exact absurd habs hnotin
          · intro habs; simp [Bee.Hunt] at habs
        · have hgetne : (h.all_bees_.set next ((h.all_bees_.getD next default).Hunt ms)).get
              ⟨i, hi'⟩ = h.all_bees_.get ⟨i, hi0⟩ := by
            simp only [List.get_eq_getElem]
            exact List.getElem_set_ne (by omega) _
          rw [hgetne]
          constructor
          · intro hmem'
            exact (hmem i hi0).mp (by rw [hq]; exact List.mem_cons_of_mem next hmem')
          · intro hh
            have hmem2 := (hmem i hi0).mpr hh
            rw [hq] at hmem2
            rcases List.mem_cons.mp hmem2 with h1 | h2
            · exact absurd h1 hin
            · exact h2
      · show rest.length + (h.all_bees_.set next
            ((h.all_bees_.getD next default).Hunt ms)).countP
            (fun b => b.at_home_ == false) = n
        rw [hflip]
        have hc2 : (next :: rest).length + h.all_bees_.countP (fun b => b.at_home_ == false)
            = n := by rw [← hq]; exact hcount
        simp only [List.length_cons] at hc2
        omega
  | beeReturn i hlt hb =>
    have hi_n : i < n := by rw [← hlen]; exact hlt
    simp only [List.get_eq_getElem] at hb
    have hnotin : i ∉ h.bees_currently_in_hive_ := by
      intro habs
      have hhome := (hmem i hlt).mp habs
      simp only [List.get_eq_getElem] at hhome
      rw [hhome] at hb
      exact absurd hb (by simp)
    have hflip := countP_set_false (fun b => b.at_home_ == false) h.all_bees_ i
      ((h.all_bees_.getD i default).backHome) hlt
      (by simp only [List.get_eq_getElem]; simp [hb]) (by simp [Bee.backHome])
    refine ⟨?_, ?_, ?_, ?_, ?_⟩
    · simp [Hive.beeReturnStep, Hive.ReturnOne, hlen]
    · simp only [Hive.beeReturnStep, Hive.ReturnOne]
      exact nodup_push _ i hnd hnotin
    · intro b hbmem
      simp only [Hive.beeReturnStep, Hive.ReturnOne] at hbmem
      rcases List.mem_append.mp hbmem with h1 | h2
      · exact hbound b h1
      · have hbi : b = i := by simpa using h2
        rw [hbi]; exact hi_n
    · intro j hj
      simp only [Hive.beeReturnStep, Hive.ReturnOne] at hj ⊢
      have hj0 : j < h.all_bees_.length := by simpa using hj
      by_cases hji : j = i
      · subst hji
        constructor
        · intro _
          have hget : (h.all_bees_.set j ((h.all_bees_.getD j default).backHome)).get
              ⟨j, by simpa using hj⟩
              = (h.all_bees_.getD j default).backHome := by
            simp [List.get_eq_getElem]
          rw [hget]
          simp [Bee.backHome]
        · intro _
          exact List.mem_append_right _ (List.mem_singleton.mpr rfl)
      · have hgetne : (h.all_bees_.set i ((h.all_bees_.getD i default).backHome)).get
            ⟨j, by simpa using hj⟩ = h.all_bees_.get ⟨j, hj0⟩ := by
          simp only [List.get_eq_getElem]
          exact List.getElem_set_ne (by omega) _
        rw [hgetne]
        constructor
        · intro hmem'
          rcases List.mem_append.mp hmem' with h1 | h2
          · exact (hmem j hj0).mp h1
          · exact absurd (by simpa using h2) hji
        · intro hh
          exact List.mem_append_left _ ((hmem j hj0).mpr hh)
    · simp only [Hive.beeReturnStep, Hive.ReturnOne, List.length_append,
        List.length_singleton]
      omega
  | attack h15 =>
    exact beesInv_of_eq n h _ (TryAttack_bees h) (TryAttack_queue h)
      ⟨hlen, hnd, hbound, hmem, hcount⟩
  | endHive =>
    refine ⟨?_, hnd, hbound, ?_, ?_⟩
    · simp [Hive.End, hlen]
    · intro i hi
      simp only [Hive.End] at hi ⊢
      have hi0 : i < h.all_bees_.length := by simpa using hi
      have hget : (h.all_bees_.map Bee.End).get ⟨i, by simpa using hi⟩
          = Bee.End (h.all_bees_.get ⟨i, hi0⟩) := by
        simp [List.get_eq_getElem]
      rw [hget]
      have hpr : (Bee.End (h.all_bees_.get ⟨i, hi0⟩)).at_home_
          = (h.all_bees_.get ⟨i, hi0⟩).at_home_ := rfl
      rw [hpr]
      exact hmem i hi0
    · simp only [Hive.End]
      have hm : (h.all_bees_.map Bee.End).countP (fun b => b.at_home_ == false)
          = h.all_bees_.countP (fun b => b.at_home_ == false) := by
        rw [List.countP_map]
        rfl
      rw [hm]
      exact hcount

theorem beesInv_reachable (n : Nat) (h : Hive) (hr : Reachable n h) : beesInv n h := by
  induction hr with
  | init => exact beesInv_init n
  | step hr hs ih => exact beesInv_step n _ _ _ hs ih

theorem honey_bounds (n : Nat) (h : Hive) (hr : Reachable n h) :
    0 ≤ h.honey_count_ ∧ h.honey_count_ ≤ kMaxHoneyCount := by
  induction hr with
  | init => exact ⟨by simp [Hive.mkHive], by simp [Hive.mkHive, kMaxHoneyCount]⟩
  | step hr hs ih =>
    cases hs with
    | release ms hstop hgt => rw [honey_ReleaseOne]; exact ih
    | beeReturn i hlt hb =>
      rw [honey_beeReturnStep]
      unfold kMaxHoneyCount at *
      constructor <;> split <;> omega
    | attack h15 =>
      rw [honey_TryAttack]
      unfold kMaxHoneyCount at *
      constructor <;> split <;> omega
    | endHive => rw [honey_End]; exact ih

/-- Claim C1: in every reachable state the honey counter satisfies
`0 <= honey_count_ <= kMaxHoneyCount`; moreover along any transition the
counter grows only on a bee-return event and shrinks only on a raid event
whose `TryAttack` returned true, which resets it to zero. -/
theorem honey_count_invariant (n : Nat) (h : Hive) (hr : Reachable n h) :
    (0 ≤ h.honey_count_ ∧ h.honey_count_ ≤ kMaxHoneyCount) ∧
    (∀ e h', Step h e h' →
      (h.honey_count_ < h'.honey_count_ → ∃ i, e = Event.beeReturn i) ∧
      (h'.honey_count_ < h.honey_count_ →
        e = Event.attack ∧ h.TryAttack.1 = true ∧ h'.honey_count_ = 0)) := by
  obtain ⟨hb1, hb2⟩ := honey_bounds n h hr
  refine ⟨⟨hb1, hb2⟩, ?_⟩
  intro e h' hs
  cases hs with
  | release ms hstop hgt =>
    rw [honey_ReleaseOne]
    exact ⟨fun hlt => absurd hlt (lt_irrefl _), fun hlt => absurd hlt (lt_irrefl _)⟩
  | beeReturn i hlt hbee =>
    rw [honey_beeReturnStep]
    constructor
    · intro _; exact ⟨i, rfl⟩
    · intro hdec
      exfalso
      split at hdec <;> omega
  | attack h15 =>
    have hTA : h.TryAttack.2.honey_count_ = if h.Size < 3 then 0 else h.honey_count_ :=
      honey_TryAttack h
    by_cases hsz : h.Size < 3
    · rw [hTA, if_pos hsz]
      refine ⟨fun hinc => absurd hinc (by omega), fun _ => ⟨rfl, ?_, rfl⟩⟩
      simp [Hive.TryAttack, hsz]
    · rw [hTA, if_neg hsz]
      exact ⟨fun hlt => absurd hlt (lt_irrefl _), fun hlt => absurd hlt (lt_irrefl _)⟩
  | endHive =>
    rw [honey_End]
    exact ⟨fun hlt => absurd hlt (lt_irrefl _), fun hlt => absurd hlt (lt_irrefl _)⟩

/-- Witness for C1 at the freshly constructed 2-bee hive. -/
theorem honey_count_invariant_witness :
    0 ≤ (Hive.mkHive 2).honey_count_ ∧ (Hive.mkHive 2).honey_count_ ≤ kMaxHoneyCount :=
  (honey_count_invariant 2 (Hive.mkHive 2) Reachable.init).1

/-- Claim C2: in every reachable state of a hive of `n` bees, the number of
bees in the present-queue plus the number of bees away hunting
(`at_home_ = false`) equals `n`, and every transition preserves this sum. -/
theorem population_invariant (n : Nat) (h : Hive) (hr : Reachable n h) :
    h.Size + h.all_bees_.countP (fun b => b.at_home_ == false) = n ∧
    (∀ e h', Step h e h' →
      h'.Size + h'.all_bees_.countP (fun b => b.at_home_ == false) = n) := by
  refine ⟨(beesInv_reachable n h hr).2.2.2.2, ?_⟩
  intro e h' hs
  exact (beesInv_reachable n h' (Reachable.step hr hs)).2.2.2.2

/-- Witness for C2 at the freshly constructed 3-bee hive. -/
theorem population_invariant_witness :
    (Hive.mkHive 3).Size +
      (Hive.mkHive 3).all_bees_.countP (fun b => b.at_home_ == false) = 3 :=
  (population_invariant 3 (Hive.mkHive 3) Reachable.init).1

/-- Claim C5: a release transition fires only after establishing
`Size() > 1` (the release loop blocks while `Size() <= 1`), pops exactly one
bee, and therefore never drops the present count below 1. -/
theorem release_keeps_anchor (h h' : Hive) (release_ms : Nat)
    (hs : Step h (Event.release release_ms) h') :
    1 < h.Size ∧ h'.Size = h.Size - 1 ∧ 1 ≤ h'.Size := by
  cases hs with
  | release hms hstop hgt =>
    have hne : h.bees_currently_in_hive_ ≠ [] := by
      intro habs
      unfold Hive.Size at hgt
      rw [habs] at hgt
      simp at hgt
    have hsz := ReleaseOne_size h release_ms hne
    refine ⟨hgt, hsz, ?_⟩
    omega

/-- Witness for C5: a concrete release step from the 2-bee hive leaves one
bee at home. -/
theorem release_keeps_anchor_witness :
    1 ≤ ((Hive.mkHive 2).ReleaseOne 5).Size :=
  (release_keeps_anchor (Hive.mkHive 2) ((Hive.mkHive 2).ReleaseOne 5) 5
    (Step.release (Hive.mkHive 2) 5 rfl (by decide))).2.2
